import Mathlib

/-!
Verification of the bloaty test harness (`tests/tester.py`).

The harness reads a test-case file, counts YAML document separators,
compiles each document into a numbered fixture with `yaml2obj`, locates
the `$`-marked invocation line, runs the system under test with stdout
redirected to `actual`, and byte-compares the result against the
expected output.  Strings are modelled as `List Char` (Python `str` is a
sequence of code points); external processes (`yaml2obj`, the SUT,
`diff`) are modelled by their observable results, supplied as oracle
fields of a `CaseSpec`.
-/

namespace Tester

/-- Split a character sequence at every newline, keeping empty pieces:
the model of Python `str.split('\n')` used to reason about the
`re.MULTILINE` scan in `file_count`. -/
def splitNL : List Char → List (List Char)
  | [] => [[]]
  | c :: cs =>
    if c = '\n' then [] :: splitNL cs
    else
      match splitNL cs with
      | [] => [[c]]
      | l :: ls => (c :: l) :: ls

/-- Model of Python `str.splitlines()` for LF-terminated text: like
`splitNL` but without the empty piece after a trailing newline, and
`[]` for the empty string. -/
def pySplitlines (s : List Char) : List (List Char) :=
  let parts := splitNL s
  if parts.getLast? = some [] then parts.dropLast else parts

/-- `len(re.findall(r'^---', contents, flags=re.MULTILINE))` from
`TestFile`: the number of lines of the file that begin with the
document-separator marker `---`.  (`^` in multiline mode anchors at the
start of every line, and the pattern matches a 3-character prefix.) -/
def file_count (contents : List Char) : Nat :=
  ((splitNL contents).filter (fun l => ("---".data).isPrefixOf l)).length

/-- The `while len(lines[0]) == 0 or lines[0][0] != '$': lines.pop(0)`
loop from `TestFile`: discard lines until one starts with `$`, returning
that line together with the lines after it, or `none` when the list is
exhausted (the Python code raises `IndexError` there). -/
def findCmd : List (List Char) → Option (List Char × List (List Char))
  | [] => none
  | l :: rest =>
    if l.length = 0 ∨ l.head? ≠ some '$' then findCmd rest
    else some (l, rest)

/-- Model of `os.path.join` for two POSIX path strings. -/
def pyPathJoin (a b : List Char) : List Char :=
  if b.head? = some '/' then b
  else if a = [] then b
  else if a.getLast? = some '/' then a ++ b
  else a ++ '/' :: b

/-- The provisioning loop
`for i in range(1, file_count + 1): subprocess.check_call('yaml2obj ... --docnum=i > i')`
starting at index `i` with `n` indices left.  `ok` is the oracle for the
compiler's exit status on each document index.  Returns the indices for
which the compiler was invoked, and whether all invocations exited zero;
a nonzero exit raises `CalledProcessError` in Python, so the loop stops
at the first failing index. -/
def provisionFrom (ok : Nat → Bool) : Nat → Nat → List Nat × Bool
  | _, 0 => ([], true)
  | i, n + 1 =>
    if ok i then
      let r := provisionFrom ok (i + 1) n
      (i :: r.1, r.2)
    else ([i], false)

/-- Outcome of one `TestFile` call.  `pass_` is the branch that
increments `successes`; `crashed` and `mismatch` are the `CRASHED` and
`FAILED` branches; `provisioningError` and `formatError` are the
uncaught `CalledProcessError` and `IndexError` exits. -/
inductive Outcome where
  | pass_
  | provisioningError
  | formatError
  | crashed
  | mismatch
deriving DecidableEq, Repr

/-- One test case together with the oracles describing the external
world: the compiler's per-index exit status, the SUT's exit status and
the bytes it writes to stdout (captured in `actual`). -/
structure CaseSpec where
  filename : List Char
  content : List Char
  compilerOk : Nat → Bool
  sutExit : Int
  sutOutput : List Char
  tmpdir : List Char
  cwd : List Char

/-- Observable result of one `TestFile` call: the outcome, the compiler
invocations made, the artifacts created in the working directory by the
`> i` redirections, whether the directory was created and whether
`shutil.rmtree` removed it, the entry appended to `failures` (if any),
whether `expected` was written, and the SUT command line. -/
structure CaseResult where
  outcome : Outcome
  compilerCalls : List Nat
  artifacts : List (List Char)
  dirCreated : Bool
  dirDeleted : Bool
  recorded : Option (List Char × List Char)
  wroteExpected : Bool
  invocation : Option (List Char)
  expectedOutput : Option (List Char)
deriving Repr

/-- The body of `TestFile`, step for step: make the temp directory,
count separators, provision fixtures (aborting on a nonzero compiler
exit), locate the `$` line (aborting with `IndexError` when there is
none), build the invocation `os.path.join(cwd, line[2:]) + ' > actual'`,
join the remaining lines into `expected_output`, run the SUT, classify,
and either record a failure (keeping the directory) or remove the
directory. -/
def runCase (s : CaseSpec) : CaseResult :=
  let n := file_count s.content
  let prov := provisionFrom s.compilerOk 1 n
  let arts := prov.1.map (fun i => (Nat.repr i).data)
  if prov.2 = false then
    { outcome := .provisioningError, compilerCalls := prov.1, artifacts := arts,
      dirCreated := true, dirDeleted := false, recorded := none,
      wroteExpected := false, invocation := none, expectedOutput := none }
  else
    match findCmd (pySplitlines s.content) with
    | none =>
      { outcome := .formatError, compilerCalls := prov.1, artifacts := arts,
        dirCreated := true, dirDeleted := false, recorded := none,
        wroteExpected := false, invocation := none, expectedOutput := none }
    | some (cmdLine, rest) =>
      let inv := pyPathJoin s.cwd (cmdLine.drop 2) ++ (" > actual".data)
      let expected := List.intercalate ['\n'] rest ++ ['\n']
      if s.sutExit ≠ 0 then
        { outcome := .crashed, compilerCalls := prov.1, artifacts := arts,
          dirCreated := true, dirDeleted := false,
          recorded := some (s.filename, s.tmpdir), wroteExpected := false,
          invocation := some inv, expectedOutput := some expected }
      else if expected ≠ s.sutOutput then
        { outcome := .mismatch, compilerCalls := prov.1, artifacts := arts,
          dirCreated := true, dirDeleted := false,
          recorded := some (s.filename, s.tmpdir), wroteExpected := true,
          invocation := some inv, expectedOutput := some expected }
      else
        { outcome := .pass_, compilerCalls := prov.1, artifacts := arts,
          dirCreated := true, dirDeleted := true, recorded := none,
          wroteExpected := true, invocation := some inv,
          expectedOutput := some expected }

/-- The module-level accumulator state: the `successes` counter, the
`failures` list, how many test files have been entered, and whether an
uncaught exception has terminated the run. -/
structure SuiteState where
  successes : Nat
  failures : List (List Char × List Char)
  processed : Nat
  aborted : Bool
deriving Repr

def initState : SuiteState :=
  { successes := 0, failures := [], processed := 0, aborted := false }

/-- Running `TestFile` over a list of cases in order.  A
`provisioningError` or `formatError` is an uncaught exception in the
Python code, so it stops the whole loop; `pass_` increments `successes`;
`crashed` and `mismatch` append `(filename, tmpdir)` to `failures`. -/
def runSuite : List CaseSpec → SuiteState → SuiteState
  | [], st => st
  | c :: cs, st =>
    let r := runCase c
    match r.outcome with
    | .provisioningError =>
      { st with processed := st.processed + 1, aborted := true }
    | .formatError =>
      { st with processed := st.processed + 1, aborted := true }
    | .pass_ =>
      runSuite cs
        { st with successes := st.successes + 1, processed := st.processed + 1 }
    | .crashed =>
      runSuite cs
        { st with failures := st.failures ++ [(c.filename, c.tmpdir)],
                  processed := st.processed + 1 }
    | .mismatch =>
      runSuite cs
        { st with failures := st.failures ++ [(c.filename, c.tmpdir)],
                  processed := st.processed + 1 }

/-- What one harness invocation reports: the process exit status, the
final summary (pass count and failure list) when the run reached it, and
how many test files were entered. -/
structure RunReport where
  exitCode : Nat
  summary : Option (Nat × List (List Char × List Char))
  processed : Nat
deriving Repr

/-- The module main code: `sys.exit(1)` with a usage message when there
are no arguments; otherwise run every discovered case (each argument
contributing its list of cases, in order); an uncaught exception exits
with status 1 and prints no summary; otherwise the summary is printed
and the exit status is 0 exactly when `failures` is empty. -/
def mainRun (argFiles : List (List CaseSpec)) : RunReport :=
  if argFiles.isEmpty then { exitCode := 1, summary := none, processed := 0 }
  else
    let st := runSuite argFiles.flatten initState
    if st.aborted then
      { exitCode := 1, summary := none, processed := st.processed }
    else
      { exitCode := if st.failures = [] then 0 else 1,
        summary := some (st.successes, st.failures),
        processed := st.processed }

/-- A file-system tree for modelling `TestArg`'s directory argument:
the named entries (plain files and subdirectories) under a directory. -/
inductive FSEntry where
  | file (name : List Char)
  | dir (name : List Char) (entries : List FSEntry)
deriving Repr

/-- A name is hidden when it starts with a dot; Python's `glob` skips
such names (they are not matched by `*` or `**`). -/
def isHidden (n : List Char) : Bool :=
  n.head? = some '.'

/-- Whether the final pattern segment `*.test` matches a basename under
`glob`/`fnmatch` semantics: the name must not be hidden and must end in
`.test`. -/
def globBase (n : List Char) : Bool :=
  !isHidden n && (".test".data).isSuffixOf n

mutual
/-- The matches `glob.glob(pref + '/**/*.test', recursive=True)`
produces from one entry: the entry's own path when its name matches
`*.test` (glob matches directories as well as files there), plus — for a
non-hidden directory, since `**` does not descend into hidden ones — the
matches inside it. -/
def globEntry (pref : List Char) : FSEntry → List (List Char)
  | .file n => if globBase n then [pref ++ '/' :: n] else []
  | .dir n es =>
    (if globBase n then [pref ++ '/' :: n] else []) ++
      (if isHidden n then [] else globList (pref ++ '/' :: n) es)

/-- The matches produced from a list of entries, in tree order. -/
def globList (pref : List Char) : List FSEntry → List (List Char)
  | [] => []
  | e :: es => globEntry pref e ++ globList pref es
end

/-- `sorted(glob.glob(os.path.join(arg, "**/*.test"), recursive=True))`
from `TestArg`: the recursive scan of the directory tree, sorted by path
(Python sorts strings by code point, which is the lexicographic order on
`List Char`). -/
def discover (arg : List Char) (es : List FSEntry) : List (List Char) :=
  List.insertionSort (fun a b => a ≤ b) (globList arg es)

/-- `TestArg`: a directory argument expands through `discover`; a
non-directory argument is passed to `TestFile` as given. -/
def expandArg (arg : List Char) : Option (List FSEntry) → List (List Char)
  | some es => discover arg es
  | none => [arg]

/-- The paths the recursive glob scan reaches, as a relation: an entry
of the current list whose name matches `*.test` (a file or a
directory), or a match found inside a non-hidden subdirectory. -/
inductive FindsIn : List Char → List FSEntry → List Char → Prop where
  | fileHere (pref : List Char) (es : List FSEntry) (n : List Char)
      (hmem : FSEntry.file n ∈ es) (hb : globBase n = true) :
      FindsIn pref es (pref ++ '/' :: n)
  | dirHere (pref : List Char) (es : List FSEntry) (n : List Char)
      (sub : List FSEntry) (hmem : FSEntry.dir n sub ∈ es)
      (hb : globBase n = true) :
      FindsIn pref es (pref ++ '/' :: n)
  | inSub (pref : List Char) (es : List FSEntry) (d : List Char)
      (sub : List FSEntry) (p : List Char) (hmem : FSEntry.dir d sub ∈ es)
      (hh : isHidden d = false) (hsub : FindsIn (pref ++ '/' :: d) sub p) :
      FindsIn pref es p

/-- The outcomes that append to `failures`. -/
def isFailureOutcome : Outcome → Bool
  | .crashed => true
  | .mismatch => true
  | _ => false

/-- Follows the spec's words for C3 (refinement comparison): the number
of lines of the file exactly equal to the document-separator marker. -/
def exactMarkerCount (contents : List Char) : Nat :=
  ((splitNL contents).filter (fun l => l = "---".data)).length

/-- Strip leading and trailing blanks and tabs. -/
def trimWS (l : List Char) : List Char :=
  ((l.dropWhile fun c => c == ' ' || c == '\t').reverse.dropWhile
    fun c => c == ' ' || c == '\t').reverse

/-- Follows the spec's words for C6 (refinement comparison): the
invocation template obtained by stripping the command marker and the
whitespace around the rest of the line. -/
def specTemplate (l : List Char) : List Char :=
  trimWS (l.drop 1)

/-- A case that passes: no fixtures, SUT exits 0 with matching output. -/
def passSpec : CaseSpec :=
  { filename := "a.test".data, content := "$ echo hi\nhi".data,
    compilerOk := fun _ => true, sutExit := 0, sutOutput := "hi\n".data,
    tmpdir := "/tmp/bloaty-1".data, cwd := "/repo".data }

/-- A case whose SUT exits 1 while writing exactly the expected bytes. -/
def crashSpec : CaseSpec :=
  { filename := "b.test".data, content := "$ run\nout".data,
    compilerOk := fun _ => true, sutExit := 1, sutOutput := "out\n".data,
    tmpdir := "/tmp/bloaty-2".data, cwd := "/repo".data }

/-- A case whose SUT exits 0 with non-matching output. -/
def mismatchSpec : CaseSpec :=
  { filename := "c.test".data, content := "$ run\nout".data,
    compilerOk := fun _ => true, sutExit := 0, sutOutput := "wrong".data,
    tmpdir := "/tmp/bloaty-3".data, cwd := "/repo".data }

/-- A case with one YAML document whose compiler always fails. -/
def provFailSpec : CaseSpec :=
  { filename := "d.test".data, content := "---\n$ run\nout".data,
    compilerOk := fun _ => false, sutExit := 0, sutOutput := "out\n".data,
    tmpdir := "/tmp/bloaty-4".data, cwd := "/repo".data }

/-- A case with one YAML document and no command-marker line. -/
def formatSpec : CaseSpec :=
  { filename := "e.test".data, content := "---\nkey: v\n".data,
    compilerOk := fun _ => true, sutExit := 0, sutOutput := [],
    tmpdir := "/tmp/bloaty-5".data, cwd := "/repo".data }

/-- A case with two YAML documents, all compiling. -/
def twoDocSpec : CaseSpec :=
  { filename := "f.test".data, content := "---\nA\n---\nB\n$ run 1 2\nout".data,
    compilerOk := fun _ => true, sutExit := 0, sutOutput := "out\n".data,
    tmpdir := "/tmp/bloaty-6".data, cwd := "/repo".data }

/-- A case whose marker line has no blank after the `$`. -/
def noSpaceSpec : CaseSpec :=
  { filename := "g.test".data, content := "$echo hi".data,
    compilerOk := fun _ => true, sutExit := 0, sutOutput := [],
    tmpdir := "/tmp/bloaty-7".data, cwd := "/repo".data }

/-- A directory with a matching file and a hidden matching file. -/
def hiddenTree : List FSEntry :=
  [FSEntry.file "a.test".data, FSEntry.file ".b.test".data]

/-- A directory whose matching file sits in a subdirectory. -/
def nestedTree : List FSEntry :=
  [FSEntry.dir "sub".data [FSEntry.file "c.test".data]]

example : splitNL "a\nb\n".data = ["a".data, "b".data, []] := by decide
example : pySplitlines "a\nb\n".data = ["a".data, "b".data] := by decide
example : pySplitlines [] = [] := by decide
example : file_count "--- !ELF\nx\n---\n".data = 2 := by decide
example : (Nat.repr 12).data = ['1', '2'] := by decide
example :
    findCmd ["junk".data, "$ cmd".data, "out".data] =
      some ("$ cmd".data, ["out".data]) := by decide
example : pyPathJoin "/r".data "b 1 2".data = "/r/b 1 2".data := by decide
example : provisionFrom (fun _ => true) 1 3 = ([1, 2, 3], true) := by decide
example : provisionFrom (fun i => i < 2) 1 3 = ([1, 2], false) := by decide

/-! ### Parser lemmas -/

/-- A line neither empty nor starting with `$` is skipped by the scan. -/
theorem findCmd_cons_skip (l : List Char) (rest : List (List Char))
    (h : l = [] ∨ l.head? ≠ some '$') :
    findCmd (l :: rest) = findCmd rest := by
  have hc : l.length = 0 ∨ l.head? ≠ some '$' := by
    rcases h with h | h
    · exact Or.inl (by simp [h])
    · exact Or.inr h
  show (if l.length = 0 ∨ l.head? ≠ some '$' then findCmd rest
      else some (l, rest)) = findCmd rest
  rw [if_pos hc]

/-- A line starting with `$` stops the scan. -/
theorem findCmd_cons_hit (l : List Char) (rest : List (List Char))
    (h : l.head? = some '$') :
    findCmd (l :: rest) = some (l, rest) := by
  have hc : ¬(l.length = 0 ∨ l.head? ≠ some '$') := by
    rintro (h0 | hne)
    · rw [List.length_eq_zero] at h0
      simp [h0] at h
    · exact hne h
  show (if l.length = 0 ∨ l.head? ≠ some '$' then findCmd rest
      else some (l, rest)) = some (l, rest)
  rw [if_neg hc]

/-- Scanning a line list made of a skippable block, a `$` line and a
tail yields exactly that line and that tail. -/
theorem findCmd_append (pre : List (List Char)) (cmd : List Char)
    (rest : List (List Char))
    (hpre : ∀ l ∈ pre, l = [] ∨ l.head? ≠ some '$')
    (hcmd : cmd.head? = some '$') :
    findCmd (pre ++ cmd :: rest) = some (cmd, rest) := by
  induction pre with
  | nil => simpa using findCmd_cons_hit cmd rest hcmd
  | cons l pre ih =>
    rw [List.cons_append, findCmd_cons_skip l _ (hpre l (.head pre))]
    exact ih fun x hx => hpre x (.tail l hx)

/-- The scan exhausts the list exactly when no line starts with `$`. -/
theorem findCmd_eq_none_iff (lines : List (List Char)) :
    findCmd lines = none ↔ ∀ l ∈ lines, l = [] ∨ l.head? ≠ some '$' := by
  induction lines with
  | nil => simp [findCmd]
  | cons l rest ih =>
    constructor
    · intro h x hx
      rw [List.mem_cons] at hx
      by_cases hl : l = [] ∨ l.head? ≠ some '$'
      · rw [findCmd_cons_skip l rest hl] at h
        rcases hx with rfl | hx
        · exact hl
        · exact ih.mp h x hx
      · push_neg at hl
        rw [findCmd_cons_hit l rest hl.2] at h
        cases h
    · intro h
      rw [findCmd_cons_skip l rest (h l (.head rest))]
      exact ih.mpr fun x hx => h x (.tail l hx)

/-! ### Provisioning lemmas -/

/-- When the compiler exits zero on every requested index, the loop
runs all `n` indices in order and reports success. -/
theorem provisionFrom_all_ok (ok : Nat → Bool) (n i : Nat)
    (h : ∀ j, i ≤ j → j < i + n → ok j = true) :
    provisionFrom ok i n = (List.range' i n, true) := by
  induction n generalizing i with
  | zero => rfl
  | succ n ih =>
    unfold provisionFrom
    rw [h i le_rfl (by omega)]
    rw [ih (i + 1) fun j h1 h2 => h j (by omega) (by omega)]
    rfl

/-- When the compiler first exits nonzero at index `j`, the loop stops
there: indices `i..j` were attempted and the result is failure. -/
theorem provisionFrom_firstFail (ok : Nat → Bool) (n i j : Nat)
    (hij : i ≤ j) (hjn : j < i + n)
    (hok : ∀ k, i ≤ k → k < j → ok k = true) (hj : ok j = false) :
    provisionFrom ok i n = (List.range' i (j - i + 1), false) := by
  induction n generalizing i with
  | zero => omega
  | succ n ih =>
    unfold provisionFrom
    by_cases hi : i = j
    · subst hi
      rw [hj]
      simp
    · rw [hok i le_rfl (by omega),
        ih (i + 1) (by omega) (by omega) fun k h1 h2 => hok k (by omega) h2]
      have h2 : j - i + 1 = (j - (i + 1) + 1) + 1 := by omega
      rw [h2]
      conv_rhs => rw [List.range'_succ]
      rfl

/-! ### Branch lemmas for `runCase` -/

theorem runCase_provFail (s : CaseSpec)
    (h : (provisionFrom s.compilerOk 1 (file_count s.content)).2 = false) :
    runCase s =
      { outcome := .provisioningError,
        compilerCalls := (provisionFrom s.compilerOk 1 (file_count s.content)).1,
        artifacts := (provisionFrom s.compilerOk 1 (file_count s.content)).1.map
          (fun i => (Nat.repr i).data),
        dirCreated := true, dirDeleted := false, recorded := none,
        wroteExpected := false, invocation := none, expectedOutput := none } := by
  simp only [runCase, h]
  simp

theorem runCase_formatErr (s : CaseSpec)
    (hp : (provisionFrom s.compilerOk 1 (file_count s.content)).2 = true)
    (hf : findCmd (pySplitlines s.content) = none) :
    runCase s =
      { outcome := .formatError,
        compilerCalls := (provisionFrom s.compilerOk 1 (file_count s.content)).1,
        artifacts := (provisionFrom s.compilerOk 1 (file_count s.content)).1.map
          (fun i => (Nat.repr i).data),
        dirCreated := true, dirDeleted := false, recorded := none,
        wroteExpected := false, invocation := none, expectedOutput := none } := by
  simp only [runCase, hp, hf]
  simp

theorem runCase_crashed (s : CaseSpec) (cmd : List Char)
    (rest : List (List Char))
    (hp : (provisionFrom s.compilerOk 1 (file_count s.content)).2 = true)
    (hc : findCmd (pySplitlines s.content) = some (cmd, rest))
    (hx : s.sutExit ≠ 0) :
    runCase s =
      { outcome := .crashed,
        compilerCalls := (provisionFrom s.compilerOk 1 (file_count s.content)).1,
        artifacts := (provisionFrom s.compilerOk 1 (file_count s.content)).1.map
          (fun i => (Nat.repr i).data),
        dirCreated := true, dirDeleted := false,
        recorded := some (s.filename, s.tmpdir), wroteExpected := false,
        invocation := some (pyPathJoin s.cwd (cmd.drop 2) ++ (" > actual".data)),
        expectedOutput := some (List.intercalate ['\n'] rest ++ ['\n']) } := by
  simp only [runCase, hp, hc, hx]
  simp [hx]

theorem runCase_mismatch (s : CaseSpec) (cmd : List Char)
    (rest : List (List Char))
    (hp : (provisionFrom s.compilerOk 1 (file_count s.content)).2 = true)
    (hc : findCmd (pySplitlines s.content) = some (cmd, rest))
    (hx : s.sutExit = 0)
    (hm : List.intercalate ['\n'] rest ++ ['\n'] ≠ s.sutOutput) :
    runCase s =
      { outcome := .mismatch,
        compilerCalls := (provisionFrom s.compilerOk 1 (file_count s.content)).1,
        artifacts := (provisionFrom s.compilerOk 1 (file_count s.content)).1.map
          (fun i => (Nat.repr i).data),
        dirCreated := true, dirDeleted := false,
        recorded := some (s.filename, s.tmpdir), wroteExpected := true,
        invocation := some (pyPathJoin s.cwd (cmd.drop 2) ++ (" > actual".data)),
        expectedOutput := some (List.intercalate ['\n'] rest ++ ['\n']) } := by
  simp only [runCase, hp, hc, hx]
  simp [hm]

theorem runCase_pass (s : CaseSpec) (cmd : List Char)
    (rest : List (List Char))
    (hp : (provisionFrom s.compilerOk 1 (file_count s.content)).2 = true)
    (hc : findCmd (pySplitlines s.content) = some (cmd, rest))
    (hx : s.sutExit = 0)
    (hm : List.intercalate ['\n'] rest ++ ['\n'] = s.sutOutput) :
    runCase s =
      { outcome := .pass_,
        compilerCalls := (provisionFrom s.compilerOk 1 (file_count s.content)).1,
        artifacts := (provisionFrom s.compilerOk 1 (file_count s.content)).1.map
          (fun i => (Nat.repr i).data),
        dirCreated := true, dirDeleted := true, recorded := none,
        wroteExpected := true,
        invocation := some (pyPathJoin s.cwd (cmd.drop 2) ++ (" > actual".data)),
        expectedOutput := some (List.intercalate ['\n'] rest ++ ['\n']) } := by
  simp only [runCase, hp, hc, hx]
  simp [hm]

/-- Per-case bookkeeping facts, by exhausting the branches of
`TestFile`: the directory is removed exactly on a pass; it is always
created; `failures` receives `(filename, tmpdir)` exactly for `CRASHED`
and `FAILED`; and `expected` is only ever written after a zero SUT
exit. -/
theorem runCase_props (s : CaseSpec) :
    ((runCase s).dirDeleted = true ↔ (runCase s).outcome = .pass_) ∧
    (runCase s).dirCreated = true ∧
    (((runCase s).outcome = .crashed ∨ (runCase s).outcome = .mismatch) ↔
      (runCase s).recorded = some (s.filename, s.tmpdir)) ∧
    (((runCase s).outcome = .crashed ∨ (runCase s).outcome = .mismatch) ∨
      (runCase s).recorded = none) ∧
    ((runCase s).wroteExpected = true → s.sutExit = 0) := by
  cases hp : (provisionFrom s.compilerOk 1 (file_count s.content)).2 with
  | false => rw [runCase_provFail s hp]; simp
  | true =>
    cases hc : findCmd (pySplitlines s.content) with
    | none => rw [runCase_formatErr s hp hc]; simp
    | some pr =>
      obtain ⟨cmd, rest⟩ := pr
      by_cases hx : s.sutExit = 0
      · by_cases hm : List.intercalate ['\n'] rest ++ ['\n'] = s.sutOutput
        · rw [runCase_pass s cmd rest hp hc hx hm]; simp [hx]
        · rw [runCase_mismatch s cmd rest hp hc hx hm]; simp [hx]
      · rw [runCase_crashed s cmd rest hp hc hx]; simp

/-! ### Suite lemmas -/

theorem runSuite_cons_pass (c : CaseSpec) (cs : List CaseSpec)
    (st : SuiteState) (h : (runCase c).outcome = .pass_) :
    runSuite (c :: cs) st =
      runSuite cs
        { st with successes := st.successes + 1,
                  processed := st.processed + 1 } := by
  simp only [runSuite, h]

theorem runSuite_cons_fail (c : CaseSpec) (cs : List CaseSpec)
    (st : SuiteState)
    (h : (runCase c).outcome = .crashed ∨ (runCase c).outcome = .mismatch) :
    runSuite (c :: cs) st =
      runSuite cs
        { st with failures := st.failures ++ [(c.filename, c.tmpdir)],
                  processed := st.processed + 1 } := by
  rcases h with h | h <;> simp only [runSuite, h]

theorem runSuite_cons_abort (c : CaseSpec) (cs : List CaseSpec)
    (st : SuiteState)
    (h : (runCase c).outcome = .provisioningError ∨
      (runCase c).outcome = .formatError) :
    runSuite (c :: cs) st =
      { st with processed := st.processed + 1, aborted := true } := by
  rcases h with h | h <;> simp only [runSuite, h]

/-- When every case passes, the loop just counts them. -/
theorem runSuite_all_pass (cs : List CaseSpec) (st : SuiteState)
    (h : ∀ c ∈ cs, (runCase c).outcome = .pass_) :
    runSuite cs st =
      { st with successes := st.successes + cs.length,
                processed := st.processed + cs.length } := by
  induction cs generalizing st with
  | nil => simp [runSuite]
  | cons c cs ih =>
    rw [runSuite_cons_pass c cs st (h c (List.mem_cons_self c cs)),
      ih _ fun x hx => h x (List.mem_cons_of_mem c hx)]
    obtain ⟨su, f, p, a⟩ := st
    simp [SuiteState.mk.injEq]
    omega

/-- `failures` only ever grows. -/
theorem runSuite_failures_mono (cs : List CaseSpec) (st : SuiteState) :
    ∃ l, (runSuite cs st).failures = st.failures ++ l := by
  induction cs generalizing st with
  | nil => exact ⟨[], by simp [runSuite]⟩
  | cons c cs ih =>
    match h : (runCase c).outcome with
    | .provisioningError =>
      rw [runSuite_cons_abort c cs st (Or.inl h)]
      exact ⟨[], by simp⟩
    | .formatError =>
      rw [runSuite_cons_abort c cs st (Or.inr h)]
      exact ⟨[], by simp⟩
    | .pass_ =>
      rw [runSuite_cons_pass c cs st h]
      exact ih _
    | .crashed =>
      obtain ⟨l, hl⟩ := ih { st with
        failures := st.failures ++ [(c.filename, c.tmpdir)],
        processed := st.processed + 1 }
      rw [runSuite_cons_fail c cs st (Or.inl h)]
      exact ⟨(c.filename, c.tmpdir) :: l, by rw [hl]; simp⟩
    | .mismatch =>
      obtain ⟨l, hl⟩ := ih { st with
        failures := st.failures ++ [(c.filename, c.tmpdir)],
        processed := st.processed + 1 }
      rw [runSuite_cons_fail c cs st (Or.inr h)]
      exact ⟨(c.filename, c.tmpdir) :: l, by rw [hl]; simp⟩

/-- A run that neither aborted nor grew `failures` passed every case. -/
theorem runSuite_clean_all_pass (cs : List CaseSpec) (st : SuiteState)
    (ha : (runSuite cs st).aborted = false)
    (hf : (runSuite cs st).failures = st.failures) :
    ∀ c ∈ cs, (runCase c).outcome = .pass_ := by
  induction cs generalizing st with
  | nil => simp
  | cons c cs ih =>
    intro x hx
    rw [List.mem_cons] at hx
    match h : (runCase c).outcome with
    | .provisioningError =>
      rw [runSuite_cons_abort c cs st (Or.inl h)] at ha
      simp at ha
    | .formatError =>
      rw [runSuite_cons_abort c cs st (Or.inr h)] at ha
      simp at ha
    | .pass_ =>
      rcases hx with rfl | hx
      · exact h
      · rw [runSuite_cons_pass c cs st h] at ha hf
        exact ih _ ha hf x hx
    | .crashed =>
      rw [runSuite_cons_fail c cs st (Or.inl h)] at hf
      obtain ⟨l, hl⟩ := runSuite_failures_mono cs
        { st with failures := st.failures ++ [(c.filename, c.tmpdir)],
                  processed := st.processed + 1 }
      rw [hl] at hf
      simp at hf
    | .mismatch =>
      rw [runSuite_cons_fail c cs st (Or.inr h)] at hf
      obtain ⟨l, hl⟩ := runSuite_failures_mono cs
        { st with failures := st.failures ++ [(c.filename, c.tmpdir)],
                  processed := st.processed + 1 }
      rw [hl] at hf
      simp at hf

/-- In an abort-free run the failure list extends, in processing
order, by exactly the `CRASHED` and `FAILED` cases. -/
theorem runSuite_failures_order (cs : List CaseSpec) (st : SuiteState)
    (h : ∀ c ∈ cs, (runCase c).outcome ≠ .provisioningError ∧
      (runCase c).outcome ≠ .formatError) :
    (runSuite cs st).failures =
      st.failures ++
        (cs.filter fun c => isFailureOutcome (runCase c).outcome).map
          (fun c => (c.filename, c.tmpdir)) := by
  induction cs generalizing st with
  | nil => simp [runSuite]
  | cons c cs ih =>
    have htail : ∀ x ∈ cs, (runCase x).outcome ≠ .provisioningError ∧
        (runCase x).outcome ≠ .formatError :=
      fun x hx => h x (List.mem_cons_of_mem c hx)
    match hout : (runCase c).outcome with
    | .provisioningError => exact absurd hout (h c (List.mem_cons_self c cs)).1
    | .formatError => exact absurd hout (h c (List.mem_cons_self c cs)).2
    | .pass_ =>
      rw [runSuite_cons_pass c cs st hout, ih _ htail, List.filter_cons,
        if_neg (by simp [hout, isFailureOutcome])]
    | .crashed =>
      rw [runSuite_cons_fail c cs st (Or.inl hout), ih _ htail,
        List.filter_cons, if_pos (by simp [hout, isFailureOutcome])]
      simp
    | .mismatch =>
      rw [runSuite_cons_fail c cs st (Or.inr hout), ih _ htail,
        List.filter_cons, if_pos (by simp [hout, isFailureOutcome])]
      simp

/-! ### Discovery lemmas -/

/-- `FindsIn` is monotone in the entry list. -/
theorem findsIn_mono (pre p : List Char) (es es' : List FSEntry)
    (hsub : ∀ e ∈ es, e ∈ es') (h : FindsIn pre es p) : FindsIn pre es' p := by
  cases h with
  | fileHere _ _ n hmem hb => exact .fileHere pre es' n (hsub _ hmem) hb
  | dirHere _ _ n sub hmem hb => exact .dirHere pre es' n sub (hsub _ hmem) hb
  | inSub _ _ d sub _ hmem hh hrec =>
    exact .inSub pre es' d sub p (hsub _ hmem) hh hrec

mutual
/-- Every match the scan produces from one entry is reachable. -/
theorem findsIn_of_mem_globEntry (e : FSEntry) (pre p : List Char)
    (h : p ∈ globEntry pre e) : FindsIn pre [e] p := by
  match e with
  | .file n =>
    simp only [globEntry] at h
    split at h
    · next hb =>
      rw [List.mem_singleton] at h
      exact h ▸ .fileHere pre [FSEntry.file n] n (List.mem_singleton_self _) hb
    · cases h
  | .dir n sub =>
    simp only [globEntry] at h
    rw [List.mem_append] at h
    rcases h with h | h
    · split at h
      · next hb =>
        rw [List.mem_singleton] at h
        exact h ▸ .dirHere pre [FSEntry.dir n sub] n sub
          (List.mem_singleton_self _) hb
      · cases h
    · split at h
      · cases h
      · next hh =>
        have hrec := findsIn_of_mem_globList sub (pre ++ '/' :: n) p h
        exact .inSub pre [FSEntry.dir n sub] n sub p
          (List.mem_singleton_self _) (by simpa using hh) hrec

/-- Every match the scan produces from an entry list is reachable. -/
theorem findsIn_of_mem_globList (es : List FSEntry) (pre p : List Char)
    (h : p ∈ globList pre es) : FindsIn pre es p := by
  match es with
  | [] => cases h
  | e :: es =>
    simp only [globList] at h
    rw [List.mem_append] at h
    rcases h with h | h
    · exact findsIn_mono pre p [e] (e :: es)
        (by intro x hx; rw [List.mem_singleton] at hx; exact hx ▸
          List.mem_cons_self e es)
        (findsIn_of_mem_globEntry e pre p h)
    · exact findsIn_mono pre p es (e :: es)
        (fun x hx => List.mem_cons_of_mem e hx)
        (findsIn_of_mem_globList es pre p h)
end

/-- A match inside a member entry is among the list's matches. -/
theorem mem_globList_of_mem_entry (pre p : List Char) (e : FSEntry)
    (es : List FSEntry) (hmem : e ∈ es) (h : p ∈ globEntry pre e) :
    p ∈ globList pre es := by
  induction es with
  | nil => cases hmem
  | cons e' es ih =>
    rw [List.mem_cons] at hmem
    simp only [globList]
    rw [List.mem_append]
    rcases hmem with rfl | hmem
    · exact Or.inl h
    · exact Or.inr (ih hmem)

/-- Every reachable path is produced by the scan. -/
theorem mem_globList_of_findsIn (pre p : List Char) (es : List FSEntry)
    (h : FindsIn pre es p) : p ∈ globList pre es := by
  induction h with
  | fileHere pref es n hmem hb =>
    refine mem_globList_of_mem_entry pref _ _ es hmem ?_
    simp [globEntry, hb]
  | dirHere pref es n sub hmem hb =>
    refine mem_globList_of_mem_entry pref _ _ es hmem ?_
    simp only [globEntry]
    rw [List.mem_append]
    exact Or.inl (by simp [hb])
  | inSub pref es d sub q hmem hh hrec ih =>
    refine mem_globList_of_mem_entry pref _ _ es hmem ?_
    simp only [globEntry]
    rw [List.mem_append]
    exact Or.inr (by simp [hh, ih])

/-- Every reachable path ends in the `.test` suffix. -/
theorem findsIn_suffix (pre p : List Char) (es : List FSEntry)
    (h : FindsIn pre es p) : (".test".data).isSuffixOf p = true := by
  induction h with
  | fileHere pref es n hmem hb =>
    have hs : (".test".data : List Char) <:+ n := by
      simp [globBase, Bool.and_eq_true] at hb
      exact hb.2
    rw [List.isSuffixOf_iff_suffix]
    exact hs.trans ⟨pref ++ ['/'], by simp⟩
  | dirHere pref es n sub hmem hb =>
    have hs : (".test".data : List Char) <:+ n := by
      simp [globBase, Bool.and_eq_true] at hb
      exact hb.2
    rw [List.isSuffixOf_iff_suffix]
    exact hs.trans ⟨pref ++ ['/'], by simp⟩
  | inSub pref es d sub q hmem hh hrec ih => exact ih

/-- `discover` is sorted by path. -/
theorem discover_sorted (arg : List Char) (es : List FSEntry) :
    List.Sorted (fun a b : List Char => a ≤ b) (discover arg es) :=
  List.sorted_insertionSort _ _

/-- `discover` has exactly the matches of the recursive scan. -/
theorem mem_discover (arg p : List Char) (es : List FSEntry) :
    p ∈ discover arg es ↔ FindsIn arg es p := by
  unfold discover
  rw [List.mem_insertionSort]
  exact ⟨findsIn_of_mem_globList es arg p, mem_globList_of_findsIn arg p es⟩

/-! ### Claims -/

/-- C1: for every test case the working directory is deleted iff the
outcome is `Pass`; any non-`Pass` outcome (`ProvisioningError`,
`Crashed`, `Mismatch`, also the `FormatError` abort) leaves the
directory in place; and in an abort-free suite every `Crashed` or
`Mismatch` case appends `(source path, directory path)` to the failure
list in processing order. -/
theorem c1_directory_lifecycle :
    (∀ s : CaseSpec,
      ((runCase s).dirDeleted = true ↔ (runCase s).outcome = Outcome.pass_)) ∧
    (∀ s : CaseSpec, (runCase s).outcome ≠ Outcome.pass_ →
      (runCase s).dirCreated = true ∧ (runCase s).dirDeleted = false) ∧
    (∀ s : CaseSpec,
      (runCase s).outcome = Outcome.crashed ∨
        (runCase s).outcome = Outcome.mismatch →
      (runCase s).recorded = some (s.filename, s.tmpdir)) ∧
    (∀ (cs : List CaseSpec) (st : SuiteState),
      (∀ c ∈ cs, (runCase c).outcome ≠ Outcome.provisioningError ∧
        (runCase c).outcome ≠ Outcome.formatError) →
      (runSuite cs st).failures =
        st.failures ++
          (cs.filter fun c => isFailureOutcome (runCase c).outcome).map
            (fun c => (c.filename, c.tmpdir))) := by
  refine ⟨fun s => (runCase_props s).1, fun s h => ?_, ?_, runSuite_failures_order⟩
  · obtain ⟨h1, h2, _⟩ := runCase_props s
    refine ⟨h2, ?_⟩
    cases hd : (runCase s).dirDeleted with
    | false => rfl
    | true => exact absurd (h1.mp hd) h
  · intro s h
    exact ((runCase_props s).2.2.1).mp h

/-- Witness for C1 at a concrete crashing case. -/
theorem c1_directory_lifecycle_witness :
    ((runCase crashSpec).dirDeleted = true ↔
      (runCase crashSpec).outcome = Outcome.pass_) ∧
    (runCase crashSpec).dirCreated = true ∧
    (runCase crashSpec).dirDeleted = false ∧
    (runCase crashSpec).recorded =
      some (crashSpec.filename, crashSpec.tmpdir) ∧
    (runSuite [crashSpec, passSpec] initState).failures =
      [(crashSpec.filename, crashSpec.tmpdir)] := by
  obtain ⟨h1, h2, h3, h4⟩ := c1_directory_lifecycle
  obtain ⟨hc, hd⟩ := h2 crashSpec (by decide)
  refine ⟨h1 crashSpec, hc, hd, h3 crashSpec (Or.inl (by decide)), ?_⟩
  rw [h4 [crashSpec, passSpec] initState ?_]
  · decide
  · intro c hcmem
    rw [List.mem_cons, List.mem_singleton] at hcmem
    rcases hcmem with rfl | rfl
    · exact ⟨by decide, by decide⟩
    · exact ⟨by decide, by decide⟩

/-- C5: a nonzero SUT exit is always classified `CRASHED`, whatever the
SUT wrote — no `expected` file is written and the diff never runs; the
verifier (writing `expected`) only ever runs after a zero exit. -/
theorem c5_nonzero_exit_crashes (s : CaseSpec)
    (hp : (provisionFrom s.compilerOk 1 (file_count s.content)).2 = true)
    (hc : (findCmd (pySplitlines s.content)).isSome = true)
    (hx : s.sutExit ≠ 0) :
    (runCase s).outcome = Outcome.crashed ∧
    (runCase s).wroteExpected = false ∧
    (∀ s' : CaseSpec, (runCase s').wroteExpected = true → s'.sutExit = 0) := by
  rw [Option.isSome_iff_exists] at hc
  obtain ⟨⟨cmd, rest⟩, hfind⟩ := hc
  rw [runCase_crashed s cmd rest hp hfind hx]
  exact ⟨rfl, rfl, fun s' => (runCase_props s').2.2.2.2⟩

/-- Witness for C5: the crashing case's stdout is byte-identical to the
expected output, yet the outcome is `CRASHED` and no verification
happens. -/
theorem c5_nonzero_exit_crashes_witness :
    crashSpec.sutOutput = "out\n".data ∧
    (runCase crashSpec).expectedOutput = some ("out\n".data) ∧
    (runCase crashSpec).outcome = Outcome.crashed ∧
    (runCase crashSpec).wroteExpected = false := by
  have h := c5_nonzero_exit_crashes crashSpec (by decide) (by decide) (by decide)
  exact ⟨by decide, by decide, h.1, h.2.1⟩

/-- In every branch that reaches the SUT, `expected_output` and the
invocation string are the ones computed from the located `$` line. -/
theorem runCase_output_inv (s : CaseSpec) (cmd : List Char)
    (rest : List (List Char))
    (hp : (provisionFrom s.compilerOk 1 (file_count s.content)).2 = true)
    (hc : findCmd (pySplitlines s.content) = some (cmd, rest)) :
    (runCase s).expectedOutput =
      some (List.intercalate ['\n'] rest ++ ['\n']) ∧
    (runCase s).invocation =
      some (pyPathJoin s.cwd (cmd.drop 2) ++ (" > actual".data)) := by
  by_cases hx : s.sutExit = 0
  · by_cases hm : List.intercalate ['\n'] rest ++ ['\n'] = s.sutOutput
    · rw [runCase_pass s cmd rest hp hc hx hm]; exact ⟨rfl, rfl⟩
    · rw [runCase_mismatch s cmd rest hp hc hx hm]; exact ⟨rfl, rfl⟩
  · rw [runCase_crashed s cmd rest hp hc hx]; exact ⟨rfl, rfl⟩

/-- C4: once the parser has discarded the leading lines and the
invocation-template line, the remaining lines — rejoined with one
newline between consecutive lines and exactly one trailing newline —
form `expected_output`; an empty remainder yields exactly one
newline. -/
theorem c4_expected_is_rejoined_remainder (s : CaseSpec)
    (pre : List (List Char)) (cmd : List Char) (rest : List (List Char))
    (hp : (provisionFrom s.compilerOk 1 (file_count s.content)).2 = true)
    (hsplit : pySplitlines s.content = pre ++ cmd :: rest)
    (hpre : ∀ l ∈ pre, l = [] ∨ l.head? ≠ some '$')
    (hcmd : cmd.head? = some '$') :
    (runCase s).expectedOutput =
      some (List.intercalate ['\n'] rest ++ ['\n']) ∧
    (rest = [] → (runCase s).expectedOutput = some ['\n']) := by
  have hfind : findCmd (pySplitlines s.content) = some (cmd, rest) := by
    rw [hsplit]
    exact findCmd_append pre cmd rest hpre hcmd
  have h := (runCase_output_inv s cmd rest hp hfind).1
  refine ⟨h, fun hrest => ?_⟩
  rw [h, hrest]
  rfl

/-- Witness for C4: a two-line file, and a file with nothing after the
template line (whose expected output is exactly one newline). -/
theorem c4_expected_is_rejoined_remainder_witness :
    (runCase passSpec).expectedOutput = some ("hi\n".data) ∧
    (runCase noSpaceSpec).expectedOutput = some ['\n'] := by
  have h1 := c4_expected_is_rejoined_remainder passSpec []
    ("$ echo hi".data) ["hi".data] (by decide) (by decide) (by decide)
    (by decide)
  have h2 := c4_expected_is_rejoined_remainder noSpaceSpec []
    ("$echo hi".data) [] (by decide) (by decide) (by decide) (by decide)
  exact ⟨by rw [h1.1]; decide, h2.2 rfl⟩

/-- C9: the `$`-line scan fails exactly when no line of the file starts
with the marker (in particular for the empty file, which has no lines);
its failure is an uncaught `IndexError`: provisioning succeeded but the
outcome is `formatError`, the suite loop stops at that case, and the
harness exits 1 with no summary printed. -/
theorem c9_format_error_fatal :
    (∀ lines : List (List Char),
      findCmd lines = none ↔ ∀ l ∈ lines, l = [] ∨ l.head? ≠ some '$') ∧
    pySplitlines [] = [] ∧
    (∀ s : CaseSpec,
      (provisionFrom s.compilerOk 1 (file_count s.content)).2 = true →
      findCmd (pySplitlines s.content) = none →
      (runCase s).outcome = Outcome.formatError) ∧
    (∀ (s : CaseSpec) (cs : List CaseSpec) (st : SuiteState),
      (runCase s).outcome = Outcome.formatError →
      runSuite (s :: cs) st =
        { st with processed := st.processed + 1, aborted := true }) ∧
    (∀ argFiles : List (List CaseSpec), argFiles ≠ [] →
      (runSuite argFiles.flatten initState).aborted = true →
      (mainRun argFiles).exitCode = 1 ∧ (mainRun argFiles).summary = none) := by
  refine ⟨findCmd_eq_none_iff, rfl, ?_, ?_, ?_⟩
  · intro s hp hf
    rw [runCase_formatErr s hp hf]
  · intro s cs st h
    exact runSuite_cons_abort s cs st (Or.inr h)
  · intro argFiles hne hab
    cases argFiles with
    | nil => exact absurd rfl hne
    | cons a as =>
      simp only [mainRun, List.isEmpty_cons, hab]
      exact ⟨rfl, rfl⟩

/-- Witness for C9 at a file with YAML content but no `$` line. -/
theorem c9_format_error_fatal_witness :
    (runCase formatSpec).outcome = Outcome.formatError ∧
    runSuite [formatSpec, passSpec] initState =
      { initState with processed := 1, aborted := true } ∧
    (mainRun [[formatSpec, passSpec]]).exitCode = 1 ∧
    (mainRun [[formatSpec, passSpec]]).summary = none := by
  obtain ⟨h1, h2, h3, h4, h5⟩ := c9_format_error_fatal
  have hout : (runCase formatSpec).outcome = Outcome.formatError :=
    h3 formatSpec (by decide) (by decide)
  have habort := h4 formatSpec [passSpec] initState hout
  have hmain := h5 [[formatSpec, passSpec]] (by simp)
    (by rw [show ([[formatSpec, passSpec]] :
      List (List CaseSpec)).flatten = [formatSpec, passSpec] from rfl,
      habort])
  exact ⟨hout, habort, hmain.1, hmain.2⟩

/-- C10: the working directory is created and every fixture is compiled
before the `$` line is looked for — on a file with `N ≥ 1` separator
lines and no `$` line the compiler still runs for all `N` documents, the
directory survives, the case is never put on the failure list, and only
then does the harness abort. -/
theorem c10_provision_precedes_format_check (s : CaseSpec)
    (hn : 1 ≤ file_count s.content)
    (hok : ∀ i, s.compilerOk i = true)
    (hnocmd : ∀ l ∈ pySplitlines s.content, l = [] ∨ l.head? ≠ some '$') :
    (runCase s).outcome = Outcome.formatError ∧
    (runCase s).compilerCalls = List.range' 1 (file_count s.content) ∧
    (runCase s).compilerCalls ≠ [] ∧
    (runCase s).dirCreated = true ∧
    (runCase s).dirDeleted = false ∧
    (runCase s).recorded = none ∧
    (∀ (cs : List CaseSpec) (st : SuiteState),
      runSuite (s :: cs) st =
        { st with processed := st.processed + 1, aborted := true } ∧
      (runSuite (s :: cs) st).failures = st.failures) := by
  have hp : provisionFrom s.compilerOk 1 (file_count s.content) =
      (List.range' 1 (file_count s.content), true) :=
    provisionFrom_all_ok s.compilerOk (file_count s.content) 1
      fun j h1 h2 => hok j
  have hf : findCmd (pySplitlines s.content) = none :=
    (findCmd_eq_none_iff _).mpr hnocmd
  have hrun := runCase_formatErr s (by rw [hp]) hf
  rw [hrun]
  refine ⟨rfl, by rw [hp], ?_, rfl, rfl, rfl, ?_⟩
  · rw [hp]
    cases hcount : file_count s.content with
    | zero => omega
    | succ k => simp [List.range'_succ]
  · intro cs st
    have habort := runSuite_cons_abort s cs st (Or.inr (by rw [hrun]))
    exact ⟨habort, by rw [habort]⟩

/-- Witness for C10 at the one-document file with no `$` line. -/
theorem c10_provision_precedes_format_check_witness :
    (runCase formatSpec).outcome = Outcome.formatError ∧
    (runCase formatSpec).compilerCalls = [1] ∧
    (runCase formatSpec).dirDeleted = false ∧
    (runCase formatSpec).recorded = none ∧
    (runSuite [formatSpec] initState).failures = [] := by
  have h := c10_provision_precedes_format_check formatSpec (by decide)
    (fun i => rfl) (by decide)
  exact ⟨h.1, by rw [h.2.1]; decide, h.2.2.2.2.1, h.2.2.2.2.2.1,
    (h.2.2.2.2.2.2 [] initState).2⟩

/-- C7: the harness exits 0 exactly when it got at least one argument
and every discovered case passed; with no arguments it exits 1 having
attempted nothing. -/
theorem c7_exit_status (argFiles : List (List CaseSpec)) :
    ((mainRun argFiles).exitCode = 0 ↔
      (argFiles ≠ [] ∧
        ∀ c ∈ argFiles.flatten, (runCase c).outcome = Outcome.pass_)) ∧
    (argFiles = [] →
      (mainRun argFiles).exitCode = 1 ∧ (mainRun argFiles).processed = 0) := by
  cases argFiles with
  | nil => exact ⟨by simp [mainRun], fun _ => ⟨rfl, rfl⟩⟩
  | cons a as =>
    refine ⟨?_, fun h => absurd h (List.cons_ne_nil a as)⟩
    constructor
    · intro h
      refine ⟨List.cons_ne_nil a as, ?_⟩
      simp only [mainRun, List.isEmpty_cons] at h
      rw [if_neg (by simp)] at h
      split at h
      · next hab => simp at h
      · next hab =>
        rw [Bool.not_eq_true] at hab
        simp only [RunReport.mk.injEq] at h
        split at h
        · next hfail =>
          exact runSuite_clean_all_pass (a :: as).flatten initState hab hfail
        · exact absurd h one_ne_zero
    · rintro ⟨-, hall⟩
      have hst := runSuite_all_pass (a :: as).flatten initState hall
      simp only [mainRun, List.isEmpty_cons]
      rw [if_neg (by simp), hst]
      rfl

/-- Witness for C7: an all-pass run exits 0; a run with no arguments
exits 1 without entering any case. -/
theorem c7_exit_status_witness :
    (mainRun [[passSpec]]).exitCode = 0 ∧
    (mainRun []).exitCode = 1 ∧ (mainRun []).processed = 0 := by
  have h1 := (c7_exit_status [[passSpec]]).1
  have h2 := (c7_exit_status []).2 rfl
  refine ⟨h1.mpr ⟨by simp, ?_⟩, h2.1, h2.2⟩
  intro c hc
  rw [show ([[passSpec]] : List (List CaseSpec)).flatten = [passSpec] from rfl,
    List.mem_singleton] at hc
  subst hc
  decide

/-- C2 as stated is false.  On a suite whose first case has a failing
fixture compiler and whose second case would pass, the first case is
never recorded in the failure list and the second case is never run:
`check_call` raises `CalledProcessError`, which nothing catches. -/
theorem c2_counterexample :
    (runCase provFailSpec).outcome = Outcome.provisioningError ∧
    (runSuite [provFailSpec, passSpec] initState).aborted = true ∧
    (runSuite [provFailSpec, passSpec] initState).processed = 1 ∧
    (runSuite [provFailSpec, passSpec] initState).failures = [] ∧
    (runCase passSpec).outcome = Outcome.pass_ := by decide

/-- C2 amended: a nonzero fixture-compiler exit at document `j` stops
that case's provisioning immediately (indices after `j` are not
attempted) and aborts the whole harness invocation as an uncaught
exception — the case is not recorded in the failure list, no later case
runs, and the process exits 1 with no summary. -/
theorem c2_provisioning_error_aborts (s : CaseSpec) (j : Nat)
    (h1 : 1 ≤ j) (h2 : j ≤ file_count s.content)
    (hok : ∀ k, 1 ≤ k → k < j → s.compilerOk k = true)
    (hj : s.compilerOk j = false) :
    (runCase s).outcome = Outcome.provisioningError ∧
    (runCase s).compilerCalls = List.range' 1 j ∧
    (runCase s).recorded = none ∧
    (runCase s).dirDeleted = false ∧
    (∀ (cs : List CaseSpec) (st : SuiteState),
      runSuite (s :: cs) st =
        { st with processed := st.processed + 1, aborted := true }) ∧
    (∀ cs : List CaseSpec,
      (mainRun [s :: cs]).exitCode = 1 ∧
      (mainRun [s :: cs]).summary = none) := by
  have hpf := provisionFrom_firstFail s.compilerOk (file_count s.content) 1 j
    h1 (by omega) (fun k hk1 hk2 => hok k hk1 hk2) hj
  have hj1 : j - 1 + 1 = j := by omega
  rw [hj1] at hpf
  have hrun := runCase_provFail s (by rw [hpf])
  have habort : ∀ (cs : List CaseSpec) (st : SuiteState),
      runSuite (s :: cs) st =
        { st with processed := st.processed + 1, aborted := true } :=
    fun cs st => runSuite_cons_abort s cs st (Or.inl (by rw [hrun]))
  rw [hrun]
  refine ⟨rfl, by rw [hpf], rfl, rfl, habort, ?_⟩
  intro cs
  have hflat : ([s :: cs] : List (List CaseSpec)).flatten = s :: cs := by simp
  simp only [mainRun, List.isEmpty_cons]
  rw [if_neg (by simp), hflat, habort cs initState]
  exact ⟨rfl, rfl⟩

/-- Witness for the amended C2 at the concrete failing suite. -/
theorem c2_provisioning_error_aborts_witness :
    (runCase provFailSpec).outcome = Outcome.provisioningError ∧
    (runCase provFailSpec).compilerCalls = [1] ∧
    (runCase provFailSpec).recorded = none ∧
    (mainRun [[provFailSpec, passSpec]]).exitCode = 1 ∧
    (mainRun [[provFailSpec, passSpec]]).summary = none := by
  have h := c2_provisioning_error_aborts provFailSpec 1 le_rfl (by decide)
    (fun k hk1 hk2 => absurd (lt_of_le_of_lt hk1 hk2) (lt_irrefl 1)) rfl
  have hmain := h.2.2.2.2.2 [passSpec]
  exact ⟨h.1, by rw [h.2.1]; decide, h.2.2.1, hmain.1, hmain.2⟩

/-- C3 as stated is false: the scan `re.findall(r'^---', …, MULTILINE)`
counts lines that merely begin with the marker.  A YAML document
separator with a tag, `--- !ELF` — the usual form in these test files —
is counted although no line exactly equals `---`. -/
theorem c3_counterexample :
    file_count "--- !ELF\n$ run\nout".data = 1 ∧
    exactMarkerCount "--- !ELF\n$ run\nout".data = 0 := by decide

/-- `compilerCalls` and `artifacts` are the provisioning loop's, in
every branch of `TestFile`. -/
theorem runCase_calls (s : CaseSpec) :
    (runCase s).compilerCalls =
      (provisionFrom s.compilerOk 1 (file_count s.content)).1 ∧
    (runCase s).artifacts =
      (provisionFrom s.compilerOk 1 (file_count s.content)).1.map
        (fun i => (Nat.repr i).data) := by
  cases hp : (provisionFrom s.compilerOk 1 (file_count s.content)).2 with
  | false => rw [runCase_provFail s hp]; exact ⟨rfl, rfl⟩
  | true =>
    cases hc : findCmd (pySplitlines s.content) with
    | none => rw [runCase_formatErr s hp hc]; exact ⟨rfl, rfl⟩
    | some pr =>
      obtain ⟨cmd, rest⟩ := pr
      by_cases hx : s.sutExit = 0
      · by_cases hm : List.intercalate ['\n'] rest ++ ['\n'] = s.sutOutput
        · rw [runCase_pass s cmd rest hp hc hx hm]; exact ⟨rfl, rfl⟩
        · rw [runCase_mismatch s cmd rest hp hc hx hm]; exact ⟨rfl, rfl⟩
      · rw [runCase_crashed s cmd rest hp hc hx]; exact ⟨rfl, rfl⟩

/-- C3 amended: the fixture count is the number of lines *beginning
with* the separator marker, and with an always-succeeding compiler the
case invokes the compiler for exactly the indices `1..N` in order,
creating exactly the `N` artifacts named by their unpadded decimal
indices. -/
theorem c3_fixture_count_and_artifacts (s : CaseSpec)
    (hok : ∀ i, s.compilerOk i = true) :
    file_count s.content =
      ((splitNL s.content).filter
        (fun l => ("---".data).isPrefixOf l)).length ∧
    (runCase s).compilerCalls = List.range' 1 (file_count s.content) ∧
    (runCase s).artifacts =
      (List.range' 1 (file_count s.content)).map
        (fun i => (Nat.repr i).data) ∧
    (runCase s).artifacts.length = file_count s.content := by
  have hpf := provisionFrom_all_ok s.compilerOk (file_count s.content) 1
    fun j hj1 hj2 => hok j
  obtain ⟨hcalls, harts⟩ := runCase_calls s
  rw [hpf] at hcalls harts
  refine ⟨rfl, hcalls, harts, ?_⟩
  rw [harts]
  simp

/-- Witness for the amended C3 at the two-document file. -/
theorem c3_fixture_count_and_artifacts_witness :
    file_count twoDocSpec.content = 2 ∧
    (runCase twoDocSpec).compilerCalls = [1, 2] ∧
    (runCase twoDocSpec).artifacts = ["1".data, "2".data] := by
  have h := c3_fixture_count_and_artifacts twoDocSpec fun i => rfl
  exact ⟨by decide, by rw [h.2.1]; decide, by rw [h.2.2.1]; decide⟩

/-- The line the scan returns does start with the marker. -/
theorem findCmd_some_head (lines : List (List Char)) (cmd : List Char)
    (rest : List (List Char)) (h : findCmd lines = some (cmd, rest)) :
    cmd.head? = some '$' := by
  induction lines with
  | nil => cases h
  | cons l ls ih =>
    by_cases hl : l.length = 0 ∨ l.head? ≠ some '$'
    · rw [findCmd_cons_skip l ls ?_] at h
      · exact ih h
      · rcases hl with h0 | hne
        · exact Or.inl (List.length_eq_zero.mp h0)
        · exact Or.inr hne
    · push_neg at hl
      rw [findCmd_cons_hit l ls hl.2] at h
      obtain ⟨rfl, rfl⟩ : l = cmd ∧ ls = rest := by
        have := Option.some.injEq .. ▸ h
        exact ⟨congrArg Prod.fst (Option.some.inj h),
          congrArg Prod.snd (Option.some.inj h)⟩
      exact hl.2

/-- C6 as stated is false: the code drops exactly two characters from
the marker line (`lines[0][2:]`), not "the marker and surrounding
whitespace".  On the line `$echo hi` the two notions split: stripping
the marker and whitespace gives the template `echo hi`, but the
executed command embeds `cho hi`. -/
theorem c6_counterexample :
    (runCase noSpaceSpec).invocation =
      some ("/repo/cho hi > actual".data) ∧
    specTemplate "$echo hi".data = "echo hi".data ∧
    (runCase noSpaceSpec).invocation ≠
      some (pyPathJoin noSpaceSpec.cwd (specTemplate "$echo hi".data) ++
        (" > actual".data)) := by decide

/-- C6 amended: the template is the marker line with its first two
characters removed (under the `"$ "` convention this strips the marker
and its single following blank); the executed command is
`os.path.join(cwd, template)` with ` > actual` appended — for a relative
template and a normal harness directory this prefixes `cwd + "/"`,
rewriting exactly the first token and leaving the rest of the template
verbatim. -/
theorem c6_invocation_rewrite (s : CaseSpec) (cmd : List Char)
    (rest : List (List Char))
    (hp : (provisionFrom s.compilerOk 1 (file_count s.content)).2 = true)
    (hc : findCmd (pySplitlines s.content) = some (cmd, rest)) :
    cmd.head? = some '$' ∧
    (runCase s).invocation =
      some (pyPathJoin s.cwd (cmd.drop 2) ++ (" > actual".data)) ∧
    (∀ t : List Char, cmd = '$' :: ' ' :: t → cmd.drop 2 = t) ∧
    ((cmd.drop 2).head? ≠ some '/' → s.cwd ≠ [] →
      s.cwd.getLast? ≠ some '/' →
      (runCase s).invocation =
        some (s.cwd ++ '/' :: (cmd.drop 2 ++ (" > actual".data)))) := by
  have hinv := (runCase_output_inv s cmd rest hp hc).2
  refine ⟨findCmd_some_head _ cmd rest hc, hinv, ?_, ?_⟩
  · intro t ht
    rw [ht]
    rfl
  · intro hb ha1 ha2
    rw [hinv]
    unfold pyPathJoin
    rw [if_neg hb, if_neg ha1, if_neg ha2, List.append_assoc]
    rfl

/-- Witness for the amended C6 at a well-formed `"$ "` line. -/
theorem c6_invocation_rewrite_witness :
    (runCase passSpec).invocation =
      some ("/repo/echo hi > actual".data) ∧
    ("$ echo hi".data).drop 2 = "echo hi".data := by
  have h := c6_invocation_rewrite passSpec ("$ echo hi".data) ["hi".data]
    (by decide) (by decide)
  have h4 := h.2.2.2 (by decide) (by decide) (by decide)
  exact ⟨by rw [h4]; decide, h.2.2.1 ("echo hi".data) (by decide)⟩

/-- C8 as stated is false: Python's `glob` never matches names that
begin with a dot, so a hidden file whose name does end in `.test` is
not discovered. -/
theorem c8_counterexample :
    (".test".data).isSuffixOf ".b.test".data = true ∧
    discover "d".data hiddenTree = ["d/a.test".data] ∧
    "d/.b.test".data ∉ discover "d".data hiddenTree := by decide

/-- C8 amended: a directory argument discovers, in sorted path order,
exactly the entries reachable through non-hidden subdirectories (at any
depth) whose basenames are not hidden and end in `.test` — directories
with such names included, hidden files excluded even when the suffix
matches; every discovered path ends in `.test`; a non-directory
argument is run as-is. -/
theorem c8_discovery (arg : List Char) (es : List FSEntry) :
    List.Sorted (fun a b : List Char => a ≤ b) (discover arg es) ∧
    (∀ p, p ∈ discover arg es ↔ FindsIn arg es p) ∧
    (∀ p, p ∈ discover arg es → (".test".data).isSuffixOf p = true) ∧
    expandArg arg none = [arg] := by
  refine ⟨discover_sorted arg es, fun p => mem_discover arg p es,
    fun p hp => ?_, rfl⟩
  exact findsIn_suffix arg p es ((mem_discover arg p es).mp hp)

/-- Witness for the amended C8 on a nested tree. -/
theorem c8_discovery_witness :
    List.Sorted (fun a b : List Char => a ≤ b)
      (discover "d".data nestedTree) ∧
    "d/sub/c.test".data ∈ discover "d".data nestedTree ∧
    (".test".data).isSuffixOf "d/sub/c.test".data = true := by
  have h := c8_discovery "d".data nestedTree
  have hmem : "d/sub/c.test".data ∈ discover "d".data nestedTree := by decide
  exact ⟨h.1, hmem, h.2.2.1 ("d/sub/c.test".data) hmem⟩

end Tester
